import Mathlib

/-!
Verification of the bepasty content-delivery and thumbnail pipeline
(`src/bepasty/views/download.py`) via a shallow embedding in Lean.

Bytes are modelled as `Char` values (one character per byte; all inputs
considered are ASCII, where UTF-8 decoding with replacement is the
identity).  The storage collaborator's random-access byte accessor
`item.data.read(length, offset)` is modelled either abstractly as a
function `read : Nat → Nat → List Char` or concretely as a slice of the
item's content string.
-/

namespace Bepasty

/-- Metadata of a stored item, as used by the download views
(`item.meta[...]` with the keys from `bepasty.constants`). -/
structure Meta where
  filename : String
  type : String
  size : Nat
  complete : Bool
  locked : Bool
  timestampDownload : Option Nat
  deriving Repr, DecidableEq

/-- An open item handle: metadata plus the stored content bytes. -/
structure Item where
  meta : Meta
  data : String
  deriving Repr, DecidableEq

/-- `item.data.read(n, off)` for an item whose stored content is `data`:
returns up to `n` bytes starting at offset `off` (fewer when the data
runs out). -/
def readData (data : String) (n off : Nat) : List Char :=
  (data.toList.drop off).take n

/-- The fixed streaming chunk size `16 * 1024` from `DownloadView.stream`. -/
def chunkSize : Nat := 16 * 1024

/-- The `while offset < limit` loop of `DownloadView.stream`, run with
`fuel` permitted iterations.  Each iteration reads
`read(min(limit - offset, 16*1024), offset)`, advances `offset` by the
number of bytes actually returned, and records the `(offset, buf)` pair
that was yielded.  `none` means the loop did not finish within `fuel`
iterations. -/
def streamLoop (read : Nat → Nat → List Char) (limit : Nat) :
    Nat → Nat → Option (List (Nat × List Char))
  | 0, offset => if offset < limit then none else some []
  | fuel + 1, offset =>
    if offset < limit then
      Option.map
        (fun rest => (offset, read (min (limit - offset) chunkSize) offset) :: rest)
        (streamLoop read limit fuel
          (offset + (read (min (limit - offset) chunkSize) offset).length))
    else some []

/-- Total number of bytes in a recorded chunk sequence. -/
def sumLens (chunks : List (Nat × List Char)) : Nat :=
  (chunks.map (fun c => c.2.length)).sum

/-- The recorded chunks start at the given offset and each chunk starts
exactly where the previous one ended (contiguity). -/
def contiguousFrom : Nat → List (Nat × List Char) → Bool
  | _, [] => true
  | o, c :: rest => decide (c.1 = o) && contiguousFrom (o + c.2.length) rest

/-- One resumption of the generator body of `DownloadView.stream` at the
loop head, inside the `with item` block, with `take` `next()` calls still
to be served (the current one included).  Returns the chunks yielded from
here on, the final metadata, and the number of times the handle is
closed.

* `take = 0`: the consumer closes the generator while it is suspended at
  a `yield`; `GeneratorExit` aborts the loop, the timestamp statement is
  skipped, and the `with` block closes the handle once.
* `offset < limit`: the body reads a buffer and yields it, consuming one
  `next()` call.
* `offset ≥ limit`: the loop is done, `item.meta[TIMESTAMP_DOWNLOAD] =
  int(time.time())` runs, the generator finishes and the `with` block
  closes the handle once. -/
def genRun (read : Nat → Nat → List Char) (limit now : Nat) (meta : Meta) :
    Nat → Nat → List (Nat × List Char) × Meta × Nat
  | 0, _ => ([], meta, 1)
  | take + 1, offset =>
    if offset < limit then
      ((offset, read (min (limit - offset) chunkSize) offset) ::
         (genRun read limit now meta take
           (offset + (read (min (limit - offset) chunkSize) offset).length)).1,
       (genRun read limit now meta take
         (offset + (read (min (limit - offset) chunkSize) offset).length)).2)
    else ([], { meta with timestampDownload := some now }, 1)

/-- A full run of `DownloadView.stream(item, start, limit)` against a
consumer that performs `take` `next()` calls before abandoning the
generator.  When `take = 0` the generator body never starts, so the
`with item` block is never entered and the handle is not closed by the
stream.  Otherwise the body runs from `offset = max 0 start`. -/
def runStream (read : Nat → Nat → List Char) (limit now : Nat) (meta : Meta)
    (start take : Nat) : List (Nat × List Char) × Meta × Nat :=
  if take = 0 then ([], meta, 0)
  else genRun read limit now meta take (max 0 start)

/-- Headers of a full-content response built by `DownloadView.response`
(shared by `InlineView` through inheritance). -/
structure DownloadHeaders where
  contentDisposition : String
  contentLength : Nat
  contentType : String
  xContentTypeOptions : String
  cacheControl : String
  etag : String
  deriving Repr, DecidableEq

/-- Python `s.startswith(pre)`: `pre` is a prefix of the character
sequence of `s`. -/
def startswith (s pre : String) : Bool :=
  pre.toList.isPrefixOf s.toList

/-- Python `s.split(c)` for a single-character separator: splits at every
occurrence of `c`, keeping empty pieces (`''.split(c) == ['']`). -/
def splitOnChar (c : Char) : List Char → List (List Char)
  | [] => [[]]
  | x :: xs =>
    match splitOnChar c xs with
    | [] => [[]]
    | y :: ys => if x = c then [] :: y :: ys else (x :: y) :: ys

/-- Python `'\n'.join(lines)` on character lists. -/
def joinLines : List (List Char) → List Char
  | [] => []
  | [l] => l
  | l :: ls => l ++ '\n' :: joinLines ls

/-- Python `s.replace(c, rep)` for a single-character pattern — the only
form the source uses (patterns `&`, `<`, `>`): every occurrence of `c`
is replaced by `rep`, left to right. -/
def replaceChar (c : Char) (rep : List Char) : List Char → List Char
  | [] => []
  | x :: xs =>
    if x = c then rep ++ replaceChar c rep xs else x :: replaceChar c rep xs

/-- `DownloadView.response(item, name)`: the header computation, with the
view's `content_disposition` class attribute passed as `dispo`
(`"attachment"` for `DownloadView`, `"inline"` for `InlineView`).  When
the disposition is not `attachment` and the stored MIME type starts with
`text/`, the Content-Type is replaced by `text/plain`. -/
def download_response (dispo : String) (item : Item) (name : String) : DownloadHeaders :=
  let ct := item.meta.type
  let ct := if dispo ≠ "attachment" then
      (if startswith ct "text/" then "text/plain" else ct)
    else ct
  { contentDisposition := dispo ++ "; filename=\"" ++ item.meta.filename ++ "\"",
    contentLength := item.meta.size,
    contentType := ct,
    xContentTypeOptions := "nosniff",
    cacheControl := "public, max-age=31536000, immutable",
    etag := "\"" ++ name ++ "\"" }

/-- Index of the last occurrence of `c` in `cs` (`str.rfind` of Python):
`-1` when absent. -/
def lastIndexOfAux (c : Char) : List Char → Nat → Int
  | [], _ => -1
  | x :: xs, i =>
    let r := lastIndexOfAux c xs (i + 1)
    if r ≥ 0 then r else if x = c then (i : Int) else -1

/-- `p.rfind(c)` on the character list of a string. -/
def lastIndexOf (cs : List Char) (c : Char) : Int :=
  lastIndexOfAux c cs 0

/-- `os.path.splitext(p)` (posix flavour, separator `/`, no altsep):
splits off the extension at the last dot, unless every character of the
basename before that dot is itself a dot (leading-dot filenames keep
their dots in the root). -/
def splitext (p : String) : String × String :=
  let cs := p.toList
  let sepIndex := lastIndexOf cs '/'
  let dotIndex := lastIndexOf cs '.'
  if sepIndex < dotIndex then
    let startIdx := (sepIndex + 1).toNat
    let between := (cs.drop startIdx).take (dotIndex.toNat - startIdx)
    if between.any (fun x => x ≠ '.') then
      ((cs.take dotIndex.toNat).asString, (cs.drop dotIndex.toNat).asString)
    else (p, "")
  else (p, "")

/-- `ThumbnailView._generate_placeholder_thumbnail(mimetype)`: the SVG
template with the MIME type string interpolated verbatim (the f-string
performs no escaping). -/
def generate_placeholder_thumbnail (mimetype : String) : String :=
  "<?xml version=\"1.0\" encoding=\"UTF-8\" standalone=\"no\"?>\n" ++
  "<svg width=\"108\" height=\"108\" viewBox=\"0 0 108 108\" xmlns=\"http://www.w3.org/2000/svg\">\n" ++
  "<rect x=\"1\" y=\"1\" width=\"106\" height=\"106\" fill=\"whitesmoke\" stroke-width=\"2\" stroke=\"blue\" />\n" ++
  "    <line x1=\"1\" y1=\"1\" x2=\"106\" y2=\"106\" stroke=\"blue\" stroke-width=\"2\" />\n" ++
  "    <line x1=\"1\" y1=\"106\" x2=\"106\" y2=\"0\" stroke=\"blue\" stroke-width=\"2\" />\n" ++
  "    <rect x=\"10\" y=\"40\" width=\"88\" height=\"24\" fill=\"whitesmoke\" fill-opacity=\"0.9\"/>\n" ++
  "    <text x=\"50%\" y=\"50%\" text-anchor=\"middle\" dominant-baseline=\"middle\" font-family=\"Arial, sans-serif\" font-size=\"18\" fill=\"blue\" lengthAdjust=\"spacingAndGlyphs\" textLength=\"90\">" ++
  mimetype ++
  "</text>\n\n</svg>"

/-- `line[:30] + ('...' if len(line) > 30 else '')` from
`_generate_txt_thumbnail`. -/
def truncLine (line : List Char) : List Char :=
  line.take 30 ++ (if line.length > 30 then "...".toList else [])

/-- `ThumbnailView._generate_txt_thumbnail(item, sz)`: reads the first
`min(sz, 1024)` bytes, takes the first 6 lines truncated to 30
characters each, escapes `&`, `<`, `>` (in that order), and embeds the
result in the SVG template.  UTF-8 decoding with replacement is modelled
as the identity (bytes are characters here). -/
def generate_txt_thumbnail (item : Item) (sz : Nat) : String :=
  let content := readData item.data (min sz 1024) 0
  let lines := (splitOnChar '\n' content).take 6
  let previewText := joinLines (lines.map truncLine)
  let previewText := replaceChar '&' "&amp;".toList previewText
  let previewText := replaceChar '<' "&lt;".toList previewText
  let previewText := replaceChar '>' "&gt;".toList previewText
  let previewText := previewText.asString
  "<?xml version=\"1.0\" encoding=\"UTF-8\" standalone=\"no\"?>\n" ++
  "<svg width=\"108\" height=\"108\" viewBox=\"0 0 108 108\" xmlns=\"http://www.w3.org/2000/svg\">\n" ++
  "<rect x=\"1\" y=\"1\" width=\"106\" height=\"106\" fill=\"white\" stroke-width=\"2\" stroke=\"gray\" />\n" ++
  "<foreignObject x=\"4\" y=\"4\" width=\"100\" height=\"100\">\n" ++
  "<div xmlns=\"http://www.w3.org/1999/xhtml\" style=\"font-family: monospace; font-size: 8px; line-height: 1.2; overflow: hidden; white-space: pre-wrap; word-wrap: break-word;\">\n" ++
  previewText ++
  "\n</div>\n</foreignObject>\n</svg>"

/-- A thumbnail HTTP response as built by `ThumbnailView.response`.
`contentDisposition` is `none` on the placeholder branches, which do not
set that header. -/
structure ThumbResponse where
  body : String
  contentDisposition : Option String
  contentLength : Nat
  contentType : String
  xContentTypeOptions : String
  cacheControl : String
  etag : String
  deriving Repr, DecidableEq

/-- The placeholder response construction, duplicated verbatim in the
source in the `if not PIL` branch and in the `case _` branch of
`ThumbnailView.response`. -/
def placeholder_response (ct name : String) : ThumbResponse :=
  let thumbnailData := generate_placeholder_thumbnail ct
  { body := thumbnailData,
    contentDisposition := none,
    contentLength := thumbnailData.length,
    contentType := "image/svg+xml",
    xContentTypeOptions := "nosniff",
    cacheControl := "public, max-age=31536000, immutable",
    etag := "\"" ++ name ++ "-thumb\"" }

/-- `ThumbnailView.response(item, name)`.  `pil` is the global flag for
the optional Pillow dependency (module-level `PIL` import succeeded);
`imageThumb fmt bytes` and `videoThumb bytes` model the external
Pillow / PyAV transcoding calls of `_generate_image_thumbnail` (after
its `item.data.read(sz, 0)`) and `_generate_video_thumbnail`.  Note the
source rebinds `name` to the filename stem (`name, ext =
os.path.splitext(fn)`) before computing the ETag of the non-placeholder
branches. -/
def thumbnail_response (pil : Bool) (imageThumb : String → String → String)
    (videoThumb : String → String) (item : Item) (name : String) : ThumbResponse :=
  let sz := item.meta.size
  let fn := item.meta.filename
  let ct := item.meta.type
  if !pil then
    placeholder_response ct name
  else
    let branch : Option (String × String) :=
      if ct = "image/jpeg" then
        some ("jpeg", imageThumb "jpeg" (readData item.data sz 0).asString)
      else if ct = "image/png" ∨ ct = "image/gif" then
        some ("png", imageThumb "png" (readData item.data sz 0).asString)
      else if ct = "image/webp" then
        some ("webp", imageThumb "webp" (readData item.data sz 0).asString)
      else if ct = "image/bmp" then
        some ("bmp", imageThumb "bmp" (readData item.data sz 0).asString)
      else if ct = "image/svg+xml" then
        some ("svg+xml", (readData item.data sz 0).asString)
      else if ct = "video/mp4" then
        some ("mp4", videoThumb (readData item.data sz 0).asString)
      else if startswith ct "text/" then
        some ("svg+xml", generate_txt_thumbnail item sz)
      else none
    match branch with
    | none => placeholder_response ct name
    | some (thumbnailType, thumbnailData) =>
      let stem := (splitext fn).1
      let thumbnailFn := stem ++ "-thumb." ++ thumbnailType
      { body := thumbnailData,
        contentDisposition := some ("inline; filename=\"" ++ thumbnailFn ++ "\""),
        contentLength := thumbnailData.length,
        contentType := "image/" ++ thumbnailType,
        xContentTypeOptions := "nosniff",
        cacheControl := "public, max-age=31536000, immutable",
        etag := "\"" ++ stem ++ "-thumb\"" }

/-- The three registered view classes: `DownloadView` (attachment),
`InlineView` (inline), `ThumbnailView` (inline, thumbnail response). -/
inductive ViewKind
  | download
  | inline
  | thumbnail
  deriving Repr, DecidableEq

/-- The `content_disposition` class attribute of each view. -/
def contentDispositionOf : ViewKind → String
  | ViewKind.download => "attachment"
  | ViewKind.inline => "inline"
  | ViewKind.thumbnail => "inline"

/-- Terminal outcome of a `get(name)` request. -/
inductive GetOutcome
  | forbidden
  | notFound
  | incompletePage (heading : String)
  | incompleteEmpty
  | okDownload (h : DownloadHeaders) (chunks : List (Nat × List Char)) (finalMeta : Meta)
  | okThumb (r : ThumbResponse)
  deriving Repr, DecidableEq

/-- Per-request environment: capability checks (`may(READ)`,
`may(ADMIN)`), the global Pillow flag, the current time, the result of
the expiration predicate `delete_if_lifetime_over`, and the number of
`next()` calls the streaming consumer will make. -/
structure Ctx where
  mayRead : Bool
  mayAdmin : Bool
  pil : Bool
  now : Nat
  expired : Bool
  take : Nat
  deriving Repr, DecidableEq

/-- `DownloadView.get(name)` (inherited unchanged by `InlineView` and
`ThumbnailView`), returning the outcome together with the number of
times the item handle is closed during the whole request, the deferred
streaming consumer included.

* READ check happens before storage access; `openwrite` failure maps to
  NotFound (no handle acquired in either case).
* The `try`/`finally` block closes the handle once on the incomplete,
  locked and expired exits (`need_close` still true).
* On hand-off, `need_close` is false: a download/inline response streams
  through `DownloadView.stream` (whose `with item` block governs the
  close, see `runStream`) with `start = 0` and `limit = item.data.size`;
  a thumbnail response (`ThumbnailView.response`) contains no close at
  all. -/
def getRequest (view : ViewKind) (ctx : Ctx) (imageThumb : String → String → String)
    (videoThumb : String → String) (stored : Option Item) (name : String) :
    GetOutcome × Nat :=
  if !ctx.mayRead then (GetOutcome.forbidden, 0)
  else match stored with
  | none => (GetOutcome.notFound, 0)
  | some item =>
    if !item.meta.complete then
      (match view with
       | ViewKind.thumbnail => GetOutcome.incompleteEmpty
       | _ => GetOutcome.incompletePage item.meta.filename, 1)
    else if item.meta.locked && !ctx.mayAdmin then (GetOutcome.forbidden, 1)
    else if ctx.expired then (GetOutcome.notFound, 1)
    else match view with
      | ViewKind.thumbnail =>
        (GetOutcome.okThumb (thumbnail_response ctx.pil imageThumb videoThumb item name), 0)
      | v =>
        let r := runStream (readData item.data) item.data.length ctx.now item.meta 0 ctx.take
        (GetOutcome.okDownload (download_response (contentDispositionOf v) item name) r.1 r.2.1,
         r.2.2)

/-- The offsets the loop of `DownloadView.stream` can reach starting
from `start`: the start itself, and from any reached offset below the
limit, the offset advanced by the length of the bytes the accessor
returns there. -/
inductive ReachesFrom (read : Nat → Nat → List Char) (limit : Nat) : Nat → Nat → Prop
  | refl (o : Nat) : ReachesFrom read limit o o
  | step (o o' : Nat) (h : o < limit)
      (next : ReachesFrom read limit
        (o + (read (min (limit - o) chunkSize) o).length) o') :
      ReachesFrom read limit o o'

/-- Boolean substring test: does `needle` occur contiguously in `hay`? -/
def occursAux (needle : List Char) : List Char → Bool
  | [] => needle.isEmpty
  | x :: xs => needle.isPrefixOf (x :: xs) || occursAux needle xs

/-- `needle` occurs as a contiguous substring of `hay`. -/
def occursIn (needle hay : String) : Bool :=
  occursAux needle.toList hay.toList

/-! ### Lemmas about the streaming loop -/

theorem streamLoop_nil_of_ge (read : Nat → Nat → List Char) (limit fuel offset : Nat)
    (h : ¬ offset < limit) : streamLoop read limit fuel offset = some [] := by
  cases fuel <;> simp [streamLoop, h]

theorem streamLoop_lt_of_cons (read : Nat → Nat → List Char)
    (limit fuel offset : Nat) (c : Nat × List Char) (rest : List (Nat × List Char))
    (h : streamLoop read limit fuel offset = some (c :: rest)) : offset < limit := by
  by_contra hge
  rw [streamLoop_nil_of_ge read limit fuel offset hge] at h
  simp at h

theorem streamLoop_stuck (read : Nat → Nat → List Char) (limit offset : Nat)
    (hlt : offset < limit)
    (hempty : read (min (limit - offset) chunkSize) offset = []) :
    ∀ fuel, streamLoop read limit fuel offset = none := by
  intro fuel
  induction fuel with
  | zero => simp [streamLoop, hlt]
  | succ n ih => simp [streamLoop, hlt, hempty, ih]

theorem streamLoop_none_of_reach (read : Nat → Nat → List Char) (limit start o : Nat)
    (hr : ReachesFrom read limit start o)
    (hnone : ∀ fuel, streamLoop read limit fuel o = none) :
    ∀ fuel, streamLoop read limit fuel start = none := by
  induction hr with
  | refl => exact hnone
  | step p o' hp _ ih =>
    intro fuel
    cases fuel with
    | zero => simp [streamLoop, hp]
    | succ n => simp [streamLoop, hp, ih hnone n]

theorem streamLoop_terminates (read : Nat → Nat → List Char) (limit : Nat)
    (hpos : ∀ o, o < limit → read (min (limit - o) chunkSize) o ≠ []) :
    ∀ fuel offset, limit - offset ≤ fuel →
      ∃ chunks, streamLoop read limit fuel offset = some chunks := by
  intro fuel
  induction fuel with
  | zero =>
    intro offset h
    exact ⟨[], streamLoop_nil_of_ge _ _ _ _ (by omega)⟩
  | succ n ih =>
    intro offset h
    by_cases hlt : offset < limit
    · have hne := hpos offset hlt
      have hlen : 0 < (read (min (limit - offset) chunkSize) offset).length :=
        List.length_pos.mpr hne
      obtain ⟨rest, hrest⟩ :=
        ih (offset + (read (min (limit - offset) chunkSize) offset).length) (by omega)
      refine ⟨(offset, read (min (limit - offset) chunkSize) offset) :: rest, ?_⟩
      simp [streamLoop, hlt, hrest]
    · exact ⟨[], streamLoop_nil_of_ge _ _ _ _ hlt⟩

theorem streamLoop_sum (read : Nat → Nat → List Char) (limit : Nat)
    (hle : ∀ n o, (read n o).length ≤ n) :
    ∀ fuel offset chunks, streamLoop read limit fuel offset = some chunks →
      offset ≤ limit → offset + sumLens chunks = limit := by
  intro fuel
  induction fuel with
  | zero =>
    intro offset chunks h hle2
    by_cases hlt : offset < limit
    · simp [streamLoop, hlt] at h
    · rw [streamLoop_nil_of_ge _ _ _ _ hlt] at h
      obtain rfl : ([] : List (Nat × List Char)) = chunks := by simpa using h
      simp [sumLens]; omega
  | succ n ih =>
    intro offset chunks h hle2
    by_cases hlt : offset < limit
    · simp only [streamLoop, if_pos hlt, Option.map_eq_some'] at h
      obtain ⟨rest, hrest, rfl⟩ := h
      have hb : (read (min (limit - offset) chunkSize) offset).length ≤ limit - offset :=
        le_trans (hle _ _) (Nat.min_le_left _ _)
      have := ih (offset + (read (min (limit - offset) chunkSize) offset).length) rest hrest
        (by omega)
      simp only [sumLens, List.map_cons, List.sum_cons] at this ⊢
      omega
    · rw [streamLoop_nil_of_ge _ _ _ _ hlt] at h
      obtain rfl : ([] : List (Nat × List Char)) = chunks := by simpa using h
      simp [sumLens]; omega

theorem streamLoop_contig (read : Nat → Nat → List Char) (limit : Nat) :
    ∀ fuel offset chunks, streamLoop read limit fuel offset = some chunks →
      contiguousFrom offset chunks = true := by
  intro fuel
  induction fuel with
  | zero =>
    intro offset chunks h
    by_cases hlt : offset < limit
    · simp [streamLoop, hlt] at h
    · rw [streamLoop_nil_of_ge _ _ _ _ hlt] at h
      obtain rfl : ([] : List (Nat × List Char)) = chunks := by simpa using h
      rfl
  | succ n ih =>
    intro offset chunks h
    by_cases hlt : offset < limit
    · simp only [streamLoop, if_pos hlt, Option.map_eq_some'] at h
      obtain ⟨rest, hrest, rfl⟩ := h
      simp [contiguousFrom, ih _ rest hrest]
    · rw [streamLoop_nil_of_ge _ _ _ _ hlt] at h
      obtain rfl : ([] : List (Nat × List Char)) = chunks := by simpa using h
      rfl

theorem streamLoop_chunk_le (read : Nat → Nat → List Char) (limit : Nat)
    (hle : ∀ n o, (read n o).length ≤ n) :
    ∀ fuel offset chunks, streamLoop read limit fuel offset = some chunks →
      ∀ c ∈ chunks, c.2.length ≤ chunkSize := by
  intro fuel
  induction fuel with
  | zero =>
    intro offset chunks h c hc
    by_cases hlt : offset < limit
    · simp [streamLoop, hlt] at h
    · rw [streamLoop_nil_of_ge _ _ _ _ hlt] at h
      obtain rfl : ([] : List (Nat × List Char)) = chunks := by simpa using h
      simp at hc
  | succ n ih =>
    intro offset chunks h c hc
    by_cases hlt : offset < limit
    · simp only [streamLoop, if_pos hlt, Option.map_eq_some'] at h
      obtain ⟨rest, hrest, rfl⟩ := h
      rcases List.mem_cons.mp hc with rfl | hc
      · exact le_trans (hle _ _) (Nat.min_le_right _ _)
      · exact ih _ rest hrest c hc
    · rw [streamLoop_nil_of_ge _ _ _ _ hlt] at h
      obtain rfl : ([] : List (Nat × List Char)) = chunks := by simpa using h
      simp at hc

theorem streamLoop_full (read : Nat → Nat → List Char) (limit : Nat)
    (hexact : ∀ o, o < limit →
      (read (min (limit - o) chunkSize) o).length = min (limit - o) chunkSize) :
    ∀ fuel offset chunks, streamLoop read limit fuel offset = some chunks →
      ∀ i (hi : i + 1 < chunks.length),
        (chunks.get ⟨i, Nat.lt_of_succ_lt hi⟩).2.length = chunkSize := by
  intro fuel
  induction fuel with
  | zero =>
    intro offset chunks h i hi
    by_cases hlt : offset < limit
    · simp [streamLoop, hlt] at h
    · rw [streamLoop_nil_of_ge _ _ _ _ hlt] at h
      obtain rfl : ([] : List (Nat × List Char)) = chunks := by simpa using h
      simp at hi
  | succ n ih =>
    intro offset chunks h i hi
    by_cases hlt : offset < limit
    · simp only [streamLoop, if_pos hlt, Option.map_eq_some'] at h
      obtain ⟨rest, hrest, rfl⟩ := h
      cases i with
      | zero =>
        have hrestne : rest ≠ [] := by
          intro hresteq
          rw [hresteq] at hi
          simp at hi
        obtain ⟨c, rest', rfl⟩ := List.exists_cons_of_ne_nil hrestne
        have hlt2 : offset + (read (min (limit - offset) chunkSize) offset).length < limit :=
          streamLoop_lt_of_cons _ _ _ _ _ _ hrest
        have hx := hexact offset hlt
        show (read (min (limit - offset) chunkSize) offset).length = chunkSize
        rcases le_total (limit - offset) chunkSize with hc | hc
        · have hx2 := hx.trans (min_eq_left hc)
          omega
        · exact hx.trans (min_eq_right hc)
      | succ j =>
        have hj : j + 1 < rest.length := by simpa using hi
        simpa using ih _ rest hrest j hj
    · rw [streamLoop_nil_of_ge _ _ _ _ hlt] at h
      obtain rfl : ([] : List (Nat × List Char)) = chunks := by simpa using h
      simp at hi

theorem streamLoop_ne_nil (read : Nat → Nat → List Char) (limit : Nat)
    (hexact : ∀ o, o < limit →
      (read (min (limit - o) chunkSize) o).length = min (limit - o) chunkSize) :
    ∀ fuel offset chunks, streamLoop read limit fuel offset = some chunks →
      ∀ c ∈ chunks, c.2 ≠ [] := by
  intro fuel
  induction fuel with
  | zero =>
    intro offset chunks h c hc
    by_cases hlt : offset < limit
    · simp [streamLoop, hlt] at h
    · rw [streamLoop_nil_of_ge _ _ _ _ hlt] at h
      obtain rfl : ([] : List (Nat × List Char)) = chunks := by simpa using h
      simp at hc
  | succ n ih =>
    intro offset chunks h c hc
    by_cases hlt : offset < limit
    · simp only [streamLoop, if_pos hlt, Option.map_eq_some'] at h
      obtain ⟨rest, hrest, rfl⟩ := h
      rcases List.mem_cons.mp hc with rfl | hc
      · have hx := hexact offset hlt
        intro hnil
        have hnil2 : read (min (limit - offset) chunkSize) offset = [] := hnil
        rw [hnil2] at hx
        have hx2 : min (limit - offset) chunkSize = 0 := by simpa using hx.symm
        have hm : 0 < min (limit - offset) chunkSize :=
          lt_min_iff.mpr ⟨by omega, by decide⟩
        omega
      · exact ih _ rest hrest c hc
    · rw [streamLoop_nil_of_ge _ _ _ _ hlt] at h
      obtain rfl : ([] : List (Nat × List Char)) = chunks := by simpa using h
      simp at hc

theorem chain_of_contiguous :
    ∀ (chunks : List (Nat × List Char)) (o : Nat), contiguousFrom o chunks = true →
      (∀ c ∈ chunks, c.2 ≠ []) →
      List.Chain' (fun a b => a < b) (chunks.map Prod.fst) := by
  intro chunks
  induction chunks with
  | nil => intro o _ _; simp
  | cons c rest ih =>
    intro o hc hne
    simp only [contiguousFrom, Bool.and_eq_true, decide_eq_true_eq] at hc
    obtain ⟨hco, hrest⟩ := hc
    cases rest with
    | nil => simp
    | cons d rest' =>
      have hd : d.1 = o + c.2.length := by
        simp only [contiguousFrom, Bool.and_eq_true, decide_eq_true_eq] at hrest
        exact hrest.1
      have hlen : 0 < c.2.length := List.length_pos.mpr (hne c (by simp))
      refine List.chain'_cons.mpr ⟨?_, ?_⟩
      · show c.1 < d.1
        omega
      · simpa using ih (o + c.2.length) hrest (fun x hx => hne x (by simp [hx]))

theorem genRun_prefix (read : Nat → Nat → List Char) (limit now : Nat) (meta : Meta) :
    ∀ fuel offset chunks, streamLoop read limit fuel offset = some chunks →
      ∀ take, take ≤ chunks.length →
        genRun read limit now meta take offset = (chunks.take take, meta, 1) := by
  intro fuel
  induction fuel with
  | zero =>
    intro offset chunks h take htake
    by_cases hlt : offset < limit
    · simp [streamLoop, hlt] at h
    · rw [streamLoop_nil_of_ge _ _ _ _ hlt] at h
      obtain rfl : ([] : List (Nat × List Char)) = chunks := by simpa using h
      obtain rfl : take = 0 := Nat.le_zero.mp htake
      simp [genRun]
  | succ n ih =>
    intro offset chunks h take htake
    by_cases hlt : offset < limit
    · simp only [streamLoop, if_pos hlt, Option.map_eq_some'] at h
      obtain ⟨rest, hrest, rfl⟩ := h
      cases take with
      | zero => simp [genRun]
      | succ t =>
        have ht : t ≤ rest.length := by simpa using htake
        simp [genRun, hlt, ih _ rest hrest t ht]
    · rw [streamLoop_nil_of_ge _ _ _ _ hlt] at h
      obtain rfl : ([] : List (Nat × List Char)) = chunks := by simpa using h
      obtain rfl : take = 0 := Nat.le_zero.mp htake
      simp [genRun]

theorem genRun_complete (read : Nat → Nat → List Char) (limit now : Nat) (meta : Meta) :
    ∀ fuel offset chunks, streamLoop read limit fuel offset = some chunks →
      ∀ take, chunks.length < take →
        genRun read limit now meta take offset =
          (chunks, { meta with timestampDownload := some now }, 1) := by
  intro fuel
  induction fuel with
  | zero =>
    intro offset chunks h take htake
    by_cases hlt : offset < limit
    · simp [streamLoop, hlt] at h
    · rw [streamLoop_nil_of_ge _ _ _ _ hlt] at h
      obtain rfl : ([] : List (Nat × List Char)) = chunks := by simpa using h
      cases take with
      | zero => simp at htake
      | succ t => simp [genRun, hlt]
  | succ n ih =>
    intro offset chunks h take htake
    by_cases hlt : offset < limit
    · simp only [streamLoop, if_pos hlt, Option.map_eq_some'] at h
      obtain ⟨rest, hrest, rfl⟩ := h
      cases take with
      | zero => simp at htake
      | succ t =>
        have ht : rest.length < t := by simpa using htake
        simp [genRun, hlt, ih _ rest hrest t ht]
    · rw [streamLoop_nil_of_ge _ _ _ _ hlt] at h
      obtain rfl : ([] : List (Nat × List Char)) = chunks := by simpa using h
      cases take with
      | zero => simp at htake
      | succ t => simp [genRun, hlt]

theorem readData_length_le (data : String) (n o : Nat) :
    (readData data n o).length ≤ n := by
  unfold readData
  rw [List.length_take]
  exact Nat.min_le_left _ _

/-! ### Claims -/

/-- C7: streaming an item of size `N` with `start = 0` and `limit = N`
against a data accessor that returns exactly the requested number of
bytes yields a finite chunk sequence whose lengths sum to exactly `N`,
with every chunk at most 16384 bytes, every chunk except possibly the
last exactly 16384 bytes, and chunks at strictly increasing, contiguous
offsets starting at `max 0 0 = 0`. -/
theorem stream_chunks_exact (read : Nat → Nat → List Char) (N : Nat)
    (hread : ∀ n o, (read n o).length = n) :
    ∃ chunks, streamLoop read N N 0 = some chunks ∧
      sumLens chunks = N ∧
      (∀ c ∈ chunks, c.2.length ≤ chunkSize) ∧
      (∀ i (hi : i + 1 < chunks.length),
        (chunks.get ⟨i, Nat.lt_of_succ_lt hi⟩).2.length = chunkSize) ∧
      contiguousFrom 0 chunks = true ∧
      List.Chain' (fun a b => a < b) (chunks.map Prod.fst) := by
  have hexact : ∀ o, o < N →
      (read (min (N - o) chunkSize) o).length = min (N - o) chunkSize :=
    fun o _ => hread _ _
  have hle : ∀ n o, (read n o).length ≤ n := fun n o => le_of_eq (hread n o)
  have hpos : ∀ o, o < N → read (min (N - o) chunkSize) o ≠ [] := by
    intro o ho hnil
    have hx := hread (min (N - o) chunkSize) o
    rw [hnil] at hx
    have hm : 0 < min (N - o) chunkSize := lt_min_iff.mpr ⟨by omega, by decide⟩
    simp at hx
    omega
  obtain ⟨chunks, hchunks⟩ := streamLoop_terminates read N hpos N 0 (by omega)
  refine ⟨chunks, hchunks, ?_, ?_, ?_, ?_, ?_⟩
  · have := streamLoop_sum read N hle N 0 chunks hchunks (by omega)
    omega
  · exact streamLoop_chunk_le read N hle N 0 chunks hchunks
  · exact streamLoop_full read N hexact N 0 chunks hchunks
  · exact streamLoop_contig read N N 0 chunks hchunks
  · exact chain_of_contiguous chunks 0 (streamLoop_contig read N N 0 chunks hchunks)
      (streamLoop_ne_nil read N hexact N 0 chunks hchunks)

/-- Witness for C7 at the accessor returning `n` copies of a byte and
`N = 5`. -/
theorem stream_chunks_exact_witness :
    ∃ chunks, streamLoop (fun n _ => List.replicate n 'a') 5 5 0 = some chunks ∧
      sumLens chunks = 5 ∧
      (∀ c ∈ chunks, c.2.length ≤ chunkSize) ∧
      (∀ i (hi : i + 1 < chunks.length),
        (chunks.get ⟨i, Nat.lt_of_succ_lt hi⟩).2.length = chunkSize) ∧
      contiguousFrom 0 chunks = true ∧
      List.Chain' (fun a b => a < b) (chunks.map Prod.fst) :=
  stream_chunks_exact (fun n _ => List.replicate n 'a') 5 (fun n o => by simp)

/-- C10: with byte reads never exceeding the request, (1) if the
accessor returns an empty byte string at any reachable offset strictly
below the limit, the stream loop never terminates, for any amount of
fuel; (2) whenever the loop terminates, the cumulative read lengths
reach the limit exactly; (3) if every read below the limit makes
progress, the loop terminates. -/
theorem stream_termination_iff (read : Nat → Nat → List Char) (limit start : Nat)
    (hlt : start < limit) (hle : ∀ n o, (read n o).length ≤ n) :
    (∀ o, ReachesFrom read limit start o → o < limit →
        read (min (limit - o) chunkSize) o = [] →
        ∀ fuel, streamLoop read limit fuel start = none) ∧
    (∀ fuel chunks, streamLoop read limit fuel start = some chunks →
        start + sumLens chunks = limit) ∧
    ((∀ o, o < limit → read (min (limit - o) chunkSize) o ≠ []) →
        ∃ fuel chunks, streamLoop read limit fuel start = some chunks) := by
  refine ⟨?_, ?_, ?_⟩
  · intro o hr ho hempty fuel
    exact streamLoop_none_of_reach read limit start o hr
      (streamLoop_stuck read limit o ho hempty) fuel
  · intro fuel chunks h
    exact streamLoop_sum read limit hle fuel start chunks h (by omega)
  · intro hpos
    obtain ⟨chunks, h⟩ := streamLoop_terminates read limit hpos limit start (by omega)
    exact ⟨limit, chunks, h⟩

/-- Witness for C10: stored data "abc" (3 bytes) with metadata size 5 as
limit; the loop reaches offset 3, reads nothing there, and diverges. -/
theorem stream_termination_iff_witness :
    ((∀ o, ReachesFrom (readData "abc") 5 0 o → o < 5 →
        readData "abc" (min (5 - o) chunkSize) o = [] →
        ∀ fuel, streamLoop (readData "abc") 5 fuel 0 = none) ∧
     (∀ fuel chunks, streamLoop (readData "abc") 5 fuel 0 = some chunks →
        0 + sumLens chunks = 5) ∧
     ((∀ o, o < 5 → readData "abc" (min (5 - o) chunkSize) o ≠ []) →
        ∃ fuel chunks, streamLoop (readData "abc") 5 fuel 0 = some chunks)) ∧
    streamLoop (readData "abc") 5 100 0 = none := by
  have h := stream_termination_iff (readData "abc") 5 0 (by decide)
    (fun n o => readData_length_le "abc" n o)
  refine ⟨h, ?_⟩
  exact h.1 3 (ReachesFrom.step 0 3 (by decide) (ReachesFrom.refl 3))
    (by decide) (by decide) 100

/-- C6: the download timestamp is set to the current time exactly when
the stream is consumed to completion.  Against a data accessor that
makes progress, the stream of an item with `start = 0`, `limit = N` has
a finite chunk sequence; any consumer that aborts after `take ≤ m`
chunks receives exactly the first `take` chunks and leaves the metadata
(in particular `timestampDownload`) unchanged, while a consumer that
drives the generator to exhaustion gets all chunks and the metadata with
`timestampDownload` set to `now`. -/
theorem stream_timestamp_iff (read : Nat → Nat → List Char) (N now : Nat) (meta : Meta)
    (hpos : ∀ o, o < N → read (min (N - o) chunkSize) o ≠ []) :
    ∃ chunks, streamLoop read N N 0 = some chunks ∧
      (∀ take, take ≤ chunks.length →
        runStream read N now meta 0 take =
          (chunks.take take, meta, if take = 0 then 0 else 1)) ∧
      (∀ take, chunks.length < take →
        runStream read N now meta 0 take =
          (chunks, { meta with timestampDownload := some now }, 1)) := by
  obtain ⟨chunks, h⟩ := streamLoop_terminates read N hpos N 0 (by omega)
  refine ⟨chunks, h, ?_, ?_⟩
  · intro take htake
    cases take with
    | zero => simp [runStream]
    | succ t =>
      have hg := genRun_prefix read N now meta N 0 chunks h (t + 1) htake
      simpa [runStream] using hg
  · intro take htake
    cases take with
    | zero => simp at htake
    | succ t =>
      have hg := genRun_complete read N now meta N 0 chunks h (t + 1) htake
      simpa [runStream] using hg

/-- Witness for C6 at the 11-byte item "hello world". -/
theorem stream_timestamp_iff_witness :
    ∃ chunks, streamLoop (readData "hello world") 11 11 0 = some chunks ∧
      (∀ take, take ≤ chunks.length →
        runStream (readData "hello world") 11 77
          ⟨"f", "t", 11, true, false, none⟩ 0 take =
          (chunks.take take, ⟨"f", "t", 11, true, false, none⟩,
           if take = 0 then 0 else 1)) ∧
      (∀ take, chunks.length < take →
        runStream (readData "hello world") 11 77
          ⟨"f", "t", 11, true, false, none⟩ 0 take =
          (chunks, ⟨"f", "t", 11, true, false, some 77⟩, 1)) :=
  stream_timestamp_iff (readData "hello world") 11 77
    ⟨"f", "t", 11, true, false, none⟩ (by decide)

/-- C8: when the stored MIME type starts with `text/`, the
inline-disposition response carries `text/plain` while the
attachment-disposition response carries the stored type; for any other
stored type, both dispositions carry the stored type unchanged. -/
theorem content_type_sanitization (item : Item) (name : String) :
    (startswith item.meta.type "text/" = true →
      (download_response "inline" item name).contentType = "text/plain" ∧
      (download_response "attachment" item name).contentType = item.meta.type) ∧
    (startswith item.meta.type "text/" = false →
      (download_response "inline" item name).contentType = item.meta.type ∧
      (download_response "attachment" item name).contentType = item.meta.type) := by
  have hin : (download_response "inline" item name).contentType =
      (if startswith item.meta.type "text/" then "text/plain" else item.meta.type) := rfl
  have hat : (download_response "attachment" item name).contentType = item.meta.type := rfl
  constructor
  · intro h
    rw [hin, h]
    exact ⟨rfl, hat⟩
  · intro h
    rw [hin, h]
    exact ⟨rfl, hat⟩

/-- Witness for C8 at a `text/html` item. -/
theorem content_type_sanitization_witness :
    (download_response "inline"
      ⟨⟨"f.html", "text/html", 3, true, false, none⟩, "abc"⟩ "n").contentType
      = "text/plain" ∧
    (download_response "attachment"
      ⟨⟨"f.html", "text/html", 3, true, false, none⟩, "abc"⟩ "n").contentType
      = "text/html" :=
  (content_type_sanitization
    ⟨⟨"f.html", "text/html", 3, true, false, none⟩, "abc"⟩ "n").1 rfl

/-- C9: with the optional codec dependency unavailable (`pil = false`),
`ThumbnailView.response` returns the placeholder response for every
declared MIME type — the raster and video strategies are never invoked
(the result does not depend on them) — and that response renders the
literal MIME type and is served as `image/svg+xml`. -/
theorem no_pil_always_placeholder (imageThumb : String → String → String)
    (videoThumb : String → String) (item : Item) (name : String) :
    thumbnail_response false imageThumb videoThumb item name =
      placeholder_response item.meta.type name ∧
    (thumbnail_response false imageThumb videoThumb item name).contentType =
      "image/svg+xml" ∧
    (thumbnail_response false imageThumb videoThumb item name).body =
      generate_placeholder_thumbnail item.meta.type :=
  ⟨rfl, rfl, rfl⟩

/-- C4 amended: with the codec available, the thumbnail Content-Type is
`image/jpeg` for JPEG sources, `image/png` for both PNG and GIF sources,
`image/webp` for WebP, `image/bmp` for BMP, and `image/mp4` (not
`image/jpeg`) for MP4 video sources. -/
theorem thumbnail_content_type_map (imageThumb : String → String → String)
    (videoThumb : String → String) (m : Meta) (data name : String) :
    (thumbnail_response true imageThumb videoThumb
      ⟨{ m with type := "image/jpeg" }, data⟩ name).contentType = "image/jpeg" ∧
    (thumbnail_response true imageThumb videoThumb
      ⟨{ m with type := "image/png" }, data⟩ name).contentType = "image/png" ∧
    (thumbnail_response true imageThumb videoThumb
      ⟨{ m with type := "image/gif" }, data⟩ name).contentType = "image/png" ∧
    (thumbnail_response true imageThumb videoThumb
      ⟨{ m with type := "image/webp" }, data⟩ name).contentType = "image/webp" ∧
    (thumbnail_response true imageThumb videoThumb
      ⟨{ m with type := "image/bmp" }, data⟩ name).contentType = "image/bmp" ∧
    (thumbnail_response true imageThumb videoThumb
      ⟨{ m with type := "video/mp4" }, data⟩ name).contentType = "image/mp4" :=
  ⟨rfl, rfl, rfl, rfl, rfl, rfl⟩

/-- C4 counterexample: a GIF item's thumbnail response carries
Content-Type `image/png`, not the matching raster format `image/gif`;
an MP4 item's carries `image/mp4`, not `image/jpeg`. -/
theorem thumbnail_content_type_map_cex :
    (thumbnail_response true (fun _ _ => "IMG") (fun _ => "VID")
      ⟨⟨"anim.gif", "image/gif", 4, true, false, none⟩, "GIF8"⟩ "n").contentType
      = "image/png" ∧
    (thumbnail_response true (fun _ _ => "IMG") (fun _ => "VID")
      ⟨⟨"anim.gif", "image/gif", 4, true, false, none⟩, "GIF8"⟩ "n").contentType
      ≠ "image/gif" ∧
    (thumbnail_response true (fun _ _ => "IMG") (fun _ => "VID")
      ⟨⟨"clip.mp4", "video/mp4", 4, true, false, none⟩, "MPEG"⟩ "n").contentType
      ≠ "image/jpeg" :=
  ⟨rfl, by decide, by decide⟩

/-- C5 amended: a locked item whose upload is complete, requested by a
caller holding READ but not ADMIN, yields Forbidden on all three views
with the handle closed exactly once, independently of the stored content
(no content byte is read). -/
theorem locked_requires_admin (view : ViewKind) (ctx : Ctx)
    (imageThumb : String → String → String) (videoThumb : String → String)
    (item : Item) (name : String)
    (hread : ctx.mayRead = true) (hadmin : ctx.mayAdmin = false)
    (hcomplete : item.meta.complete = true) (hlocked : item.meta.locked = true) :
    getRequest view ctx imageThumb videoThumb (some item) name =
      (GetOutcome.forbidden, 1) := by
  simp [getRequest, hread, hadmin, hcomplete, hlocked]

/-- Witness for C5 (amended) at a complete locked item. -/
theorem locked_requires_admin_witness :
    getRequest ViewKind.thumbnail ⟨true, false, true, 0, false, 0⟩
      (fun _ _ => "I") (fun _ => "V")
      (some ⟨⟨"f.txt", "text/plain", 3, true, true, none⟩, "abc"⟩) "n" =
      (GetOutcome.forbidden, 1) :=
  locked_requires_admin ViewKind.thumbnail ⟨true, false, true, 0, false, 0⟩
    (fun _ _ => "I") (fun _ => "V")
    ⟨⟨"f.txt", "text/plain", 3, true, true, none⟩, "abc"⟩ "n" rfl rfl rfl rfl

/-- C5 counterexample: a locked item whose `complete` flag is false is
answered with the 409 incomplete response, not Forbidden — the
incomplete check precedes the lock check in `DownloadView.get`. -/
theorem locked_incomplete_not_forbidden :
    getRequest ViewKind.download ⟨true, false, true, 0, false, 5⟩
      (fun _ _ => "I") (fun _ => "V")
      (some ⟨⟨"f.txt", "text/plain", 3, false, true, none⟩, "abc"⟩) "n" =
      (GetOutcome.incompletePage "f.txt", 1) ∧
    (getRequest ViewKind.download ⟨true, false, true, 0, false, 5⟩
      (fun _ _ => "I") (fun _ => "V")
      (some ⟨⟨"f.txt", "text/plain", 3, false, true, none⟩, "abc"⟩) "n").1 ≠
      GetOutcome.forbidden :=
  ⟨rfl, by decide⟩

/-- C1: evaluation of the request pipeline at a complete, unlocked,
unexpired item shows the thumbnail success path closes the acquired
handle zero times — not exactly once as claimed — while the download
success path and the gate's early-terminating incomplete path each close
it exactly once. -/
theorem thumbnail_handle_never_closed :
    (getRequest ViewKind.thumbnail ⟨true, true, true, 100, false, 5⟩
      (fun _ _ => "I") (fun _ => "V")
      (some ⟨⟨"a.txt", "text/plain", 3, true, false, none⟩, "abc"⟩) "n").2 = 0 ∧
    (getRequest ViewKind.download ⟨true, true, true, 100, false, 5⟩
      (fun _ _ => "I") (fun _ => "V")
      (some ⟨⟨"a.txt", "text/plain", 3, true, false, none⟩, "abc"⟩) "n").2 = 1 ∧
    (getRequest ViewKind.thumbnail ⟨true, true, true, 100, false, 5⟩
      (fun _ _ => "I") (fun _ => "V")
      (some ⟨⟨"a.txt", "text/plain", 3, false, false, none⟩, "abc"⟩) "n").2 = 1 := by
  refine ⟨rfl, ?_, rfl⟩
  decide

set_option maxRecDepth 8192

/-- C2: the placeholder strategy embeds the MIME type unescaped — for
the MIME-type string `x/<script>` the generated SVG contains the literal
substring `<script>` — whereas the text-preview strategy escapes its
input: the SVG preview of a text item containing
`<script>alert(1)</script>` has no literal `<script>` substring. -/
theorem placeholder_not_escaped :
    occursIn "<script>" (generate_placeholder_thumbnail "x/<script>") = true ∧
    occursIn "<script>" (generate_txt_thumbnail
      ⟨⟨"a.txt", "text/plain", 25, true, false, none⟩,
       "<script>alert(1)</script>"⟩ 25) = false := by
  constructor
  · decide
  · decide

/-- C3: in the text-preview branch (and every other non-placeholder
branch), the thumbnail ETag is built from the *filename stem* — for an
item stored under name `item42` with filename `notes.txt` it is
`"notes-thumb"`, not `"item42-thumb"` — because the source rebinds
`name` via `os.path.splitext(fn)`; the full-download ETag is the quoted
item name as claimed. -/
theorem thumbnail_etag_filename_stem :
    (thumbnail_response true (fun _ _ => "I") (fun _ => "V")
      ⟨⟨"notes.txt", "text/plain", 3, true, false, none⟩, "abc"⟩ "item42").etag
      = "\"notes-thumb\"" ∧
    "\"notes-thumb\"" ≠ "\"item42-thumb\"" ∧
    (download_response "attachment"
      ⟨⟨"notes.txt", "text/plain", 3, true, false, none⟩, "abc"⟩ "item42").etag
      = "\"item42\"" :=
  ⟨rfl, by decide, rfl⟩

end Bepasty
